import Mathlib

/-!
Shallow embedding of the core typing-game logic of `aravhawk/typing-game`
(`src/components/typing-game.tsx` and `src/app/actions/share.ts`), together
with theorems settling the specification claims about it.

Conventions:
* JS strings are modelled as `List Char` (or Lean `String` inside the game
  state, with `.data` taken at the comparison boundary).
* JS numbers on the metric paths are modelled exactly: millisecond
  timestamps as `ℕ`, the countdown timer and computed metrics as `ℤ`,
  intermediate real arithmetic as `ℚ`.  `Math.round x = ⌊x + 1/2⌋` is
  Mathlib's `round`, `Math.floor` is `Int.floor`.
* React component state is the record `GameState`; each effect / handler of
  the component becomes an explicit state-transition function.
-/

namespace TypingGame

/-- One entry of the WPM history: `{ time: number; wpm: number }`. -/
structure Sample where
  time : ℕ
  wpm : ℤ
deriving DecidableEq, Repr

/-- The React component state (`interface GameState`, typing-game.tsx lines
14-23): reference text, typed input, optional start timestamp (ms), countdown
timer, the two phase flags and the frozen final metrics. -/
structure GameState where
  text : String
  userInput : String
  startTime : Option ℕ
  timer : ℤ
  isGameActive : Bool
  isGameFinished : Bool
  finalWPM : ℤ
  finalAccuracy : ℤ
deriving DecidableEq, Repr

/-- The interface `GameResult` (typing-game.tsx lines 25-30): the immutable final
result record handed to the result sink. -/
structure Result where
  wpm : ℤ
  accuracy : ℤ
  duration : ℕ
  wpmHistory : List Sample
deriving DecidableEq, Repr

/-- Helper `getCorrectChars(userInput, text)` (typing-game.tsx lines 77-81):
`userInput.split("").filter((char, index) => char === text[index]).length`.
The JS filter receives each character with its index, and `text[index]` is
`undefined` (never equal to a character) once `index` runs past `text`;
`List.enum` supplies the indices and `text.get? index = some char` is the
comparison. -/
def getCorrectChars (userInput text : List Char) : ℕ :=
  ((userInput.enum).filter (fun p => decide (text.get? p.1 = some p.2))).length

/-- Written from the specification's words, for comparison with
`getCorrectChars`: "counts positions `i < min(len(reference), len(typed))`
where `typed[i] == reference[i]`". -/
def correctCountSpec (reference typed : List Char) : ℕ :=
  ((List.range (min reference.length typed.length)).filter
    (fun i => decide (typed.get? i = reference.get? i))).length

/-- Recursive companion of `getCorrectChars` used to reason by induction:
walks both lists in step, counting equal characters. -/
def matchCount : List Char → List Char → ℕ
  | [], _ => 0
  | _ :: _, [] => 0
  | c :: cs, d :: ds => (if d = c then 1 else 0) + matchCount cs ds

lemma matchCount_nil_right : ∀ u : List Char, matchCount u [] = 0
  | [] => rfl
  | _ :: _ => rfl

lemma get?_eq_head?_drop (t : List Char) : ∀ n : ℕ, t.get? n = (t.drop n).head? := by
  induction t with
  | nil => intro n; cases n <;> rfl
  | cons d ds ih =>
    intro n
    cases n with
    | zero => rfl
    | succ m => exact ih m

lemma drop_succ_eq_tail_drop (t : List Char) : ∀ n : ℕ, t.drop (n + 1) = (t.drop n).tail := by
  induction t with
  | nil => intro n; cases n <;> rfl
  | cons d ds ih =>
    intro n
    cases n with
    | zero => rfl
    | succ m => exact ih m

lemma enumFrom_filter_length (t : List Char) :
    ∀ (u : List Char) (n : ℕ),
      ((u.enumFrom n).filter (fun p => decide (t.get? p.1 = some p.2))).length
        = matchCount u (t.drop n) := by
  intro u
  induction u with
  | nil => intro n; simp [matchCount]
  | cons c cs ih =>
    intro n
    have hhead : t.get? n = (t.drop n).head? := get?_eq_head?_drop t n
    have htail : t.drop (n + 1) = (t.drop n).tail := drop_succ_eq_tail_drop t n
    cases hd : t.drop n with
    | nil =>
      have h0 : t.get? n = none := by rw [hhead, hd]; rfl
      have h1 : t.drop (n + 1) = ([] : List Char) := by rw [htail, hd]; rfl
      have hcond : decide (t.get? n = some c) = false := by rw [h0]; simp
      simp only [List.enumFrom, List.filter_cons, hcond, Bool.false_eq_true, if_false]
      rw [ih (n + 1), h1]
      simp [matchCount, matchCount_nil_right]
    | cons d ds =>
      have h0 : t.get? n = some d := by rw [hhead, hd]; rfl
      have h1 : t.drop (n + 1) = ds := by rw [htail, hd]; rfl
      have hcond : decide (t.get? n = some c) = decide (d = c) := by
        rw [h0]
        simp
      simp only [List.enumFrom, List.filter_cons, hcond]
      by_cases hcd : d = c
      · simp only [hcd, decide_True, if_true, List.length_cons]
        rw [ih (n + 1), h1]
        simp [matchCount, hcd, Nat.add_comm]
      · simp only [decide_eq_true_eq, if_neg hcd]
        rw [ih (n + 1), h1]
        simp [matchCount, hcd]

lemma getCorrectChars_eq_matchCount (u t : List Char) :
    getCorrectChars u t = matchCount u t := by
  have h := enumFrom_filter_length t u 0
  simpa [getCorrectChars, List.enum] using h

lemma matchCount_le_min : ∀ u t : List Char, matchCount u t ≤ min u.length t.length
  | [], _ => by simp [matchCount]
  | _ :: _, [] => by simp [matchCount]
  | c :: cs, d :: ds => by
    have ih := matchCount_le_min cs ds
    unfold matchCount
    by_cases hcd : d = c
    · rw [if_pos hcd]
      simp only [List.length_cons]
      omega
    · rw [if_neg hcd]
      simp only [List.length_cons]
      omega

lemma matchCount_eq_spec : ∀ (u r : List Char), matchCount u r = correctCountSpec r u := by
  intro u
  induction u with
  | nil => intro r; simp [matchCount, correctCountSpec]
  | cons c cs ih =>
    intro r
    cases r with
    | nil => simp [matchCount_nil_right, correctCountSpec]
    | cons d ds =>
      have hmin : min (d :: ds).length (c :: cs).length = min ds.length cs.length + 1 := by
        simp [Nat.succ_min_succ]
      have hpred :
          ((fun i => decide ((c :: cs).get? i = (d :: ds).get? i)) ∘ Nat.succ)
            = fun i => decide (cs.get? i = ds.get? i) := by
        funext i
        simp [Function.comp]
      have hrest := ih ds
      unfold correctCountSpec at hrest ⊢
      rw [hmin, List.range_succ_eq_map, List.filter_cons, List.filter_map, hpred]
      unfold matchCount
      have hhead : (decide ((c :: cs).get? 0 = (d :: ds).get? 0)) = decide (c = d) := by
        simp
      rw [hhead]
      by_cases hcd : c = d
      · rw [if_pos hcd.symm, if_pos (by simp [hcd])]
        simp only [List.length_cons, List.length_map]
        rw [← hrest]
        omega
      · rw [if_neg (fun h => hcd h.symm), if_neg (by simp [hcd])]
        simp only [List.length_map]
        rw [← hrest]
        omega

/-- C2: `getCorrectChars(userInput, text)` counts exactly the positions
`i < min(len(reference), len(typed))` with `typed[i] = reference[i]`
(the spec-side count `correctCountSpec`), is therefore bounded by
`min(len(reference), len(typed))` — typed characters beyond the reference are
never counted — and returns 0 whenever either string is empty. -/
theorem getCorrectChars_spec (reference typed : List Char) :
    getCorrectChars typed reference = correctCountSpec reference typed
    ∧ getCorrectChars typed reference ≤ min reference.length typed.length
    ∧ getCorrectChars [] reference = 0
    ∧ getCorrectChars typed [] = 0 := by
  refine ⟨?_, ?_, ?_, ?_⟩
  · rw [getCorrectChars_eq_matchCount, matchCount_eq_spec]
  · rw [getCorrectChars_eq_matchCount]
    have h := matchCount_le_min typed reference
    omega
  · rw [getCorrectChars_eq_matchCount]; rfl
  · rw [getCorrectChars_eq_matchCount, matchCount_nil_right]

/-- Function `calculateWPM` (typing-game.tsx lines 291-297): from the elapsed
milliseconds, `elapsedSeconds = ms / 1000`, `elapsedMinutes = elapsedSeconds /
60`; only when `elapsedMinutes > 0` does the code compute
`Math.min(Math.round((correctChars / 5) / elapsedMinutes), 999)`.  When the
guard fails no sample is produced and the displayed WPM keeps its initial
value 0, which the branch returns here. -/
def calculateWPM (correctChars : ℕ) (elapsedMillis : ℤ) : ℤ :=
  let elapsedSeconds : ℚ := (elapsedMillis : ℚ) / 1000
  let elapsedMinutes : ℚ := elapsedSeconds / 60
  if 0 < elapsedMinutes then
    min (round ((correctChars : ℚ) / 5 / elapsedMinutes)) 999
  else 0

lemma round_nonneg_of_nonneg {q : ℚ} (hq : 0 ≤ q) : 0 ≤ round q := by
  rw [round_eq]
  have : (0 : ℚ) ≤ q + 1 / 2 := by linarith
  exact Int.floor_nonneg.mpr this

/-- C3: for `elapsedMillis > 0` the instantaneous WPM is exactly
`round((correctCount / 5) / (elapsedMillis / 60000))` clamped to `[0, 999]`;
it is 0 for `elapsedMillis ≤ 0`; and in all cases it lies in `[0, 999]`. -/
theorem calculateWPM_spec (c : ℕ) (ms : ℤ) :
    (ms ≤ 0 → calculateWPM c ms = 0)
    ∧ (0 < ms →
        calculateWPM c ms
          = max 0 (min (round ((c : ℚ) / 5 / ((ms : ℚ) / 60000))) 999))
    ∧ 0 ≤ calculateWPM c ms ∧ calculateWPM c ms ≤ 999 := by
  have hminutes : ((ms : ℚ) / 1000) / 60 = (ms : ℚ) / 60000 := by
    ring
  by_cases hpos : (0 : ℤ) < ms
  · have hq : (0 : ℚ) < (ms : ℚ) := by exact_mod_cast hpos
    have hguard : (0 : ℚ) < ((ms : ℚ) / 1000) / 60 := by positivity
    have hval : calculateWPM c ms
        = min (round ((c : ℚ) / 5 / ((ms : ℚ) / 60000))) 999 := by
      unfold calculateWPM
      rw [if_pos hguard, hminutes]
    have hnn : 0 ≤ round ((c : ℚ) / 5 / ((ms : ℚ) / 60000)) := by
      apply round_nonneg_of_nonneg
      positivity
    refine ⟨fun h => absurd hpos (not_lt.mpr h), fun _ => ?_, ?_, ?_⟩
    · rw [hval, max_eq_right]
      exact le_min hnn (by norm_num)
    · rw [hval]
      exact le_min hnn (by norm_num)
    · rw [hval]
      exact min_le_right _ _
  · have hle : ms ≤ 0 := not_lt.mp hpos
    have hq : (ms : ℚ) ≤ 0 := by exact_mod_cast hle
    have hguard : ¬ (0 : ℚ) < ((ms : ℚ) / 1000) / 60 := by
      rw [hminutes]
      rw [not_lt]
      have h6 : (0 : ℚ) < 60000 := by norm_num
      exact div_nonpos_of_nonpos_of_nonneg hq (le_of_lt h6)
    have hval : calculateWPM c ms = 0 := by
      unfold calculateWPM
      rw [if_neg hguard]
    exact ⟨fun _ => hval, fun h => absurd h hpos, by rw [hval], by rw [hval]; norm_num⟩

/-- Witness for `calculateWPM_spec`: at `elapsedMillis = -5` the guard gives 0,
and 25 correct characters in 15000 ms give `round((25/5)/(15000/60000)) = 20`
(the scenario of spec section 8). -/
theorem calculateWPM_spec_witness :
    calculateWPM 25 (-5) = 0 ∧ calculateWPM 25 15000 = 20 := by
  constructor
  · exact (calculateWPM_spec 25 (-5)).1 (by norm_num)
  · have h := (calculateWPM_spec 25 15000).2.1 (by norm_num)
    rw [h]
    have : ((25 : ℕ) : ℚ) / 5 / ((15000 : ℤ) / 60000 : ℚ) = 20 := by
      norm_num
    rw [this]
    simp [round_intCast]

/-- The `setWpmHistory` functional updater (typing-game.tsx lines 300-311):
`lastEntry = prev[prev.length - 1]`; if it exists and has the same
`time`, replace it (`[...prev.slice(0, -1), {time, wpm}]`), otherwise append
(`[...prev, {time, wpm}]`). -/
def recordSample (prev : List Sample) (timeSeconds : ℕ) (wpm : ℤ) : List Sample :=
  match prev.getLast? with
  | some lastEntry =>
    if lastEntry.time = timeSeconds then prev.dropLast ++ [⟨timeSeconds, wpm⟩]
    else prev ++ [⟨timeSeconds, wpm⟩]
  | none => prev ++ [⟨timeSeconds, wpm⟩]

lemma recordSample_getLast? (prev : List Sample) (t : ℕ) (w : ℤ) :
    (recordSample prev t w).getLast? = some ⟨t, w⟩ := by
  unfold recordSample
  cases h : prev.getLast? with
  | none => simp
  | some l =>
    by_cases ht : l.time = t
    · simp [ht]
    · simp [ht]

lemma recordSample_length (prev : List Sample) (t : ℕ) (w : ℤ) :
    (recordSample prev t w).length
      = (match prev.getLast? with
         | some l => if l.time = t then prev.length else prev.length + 1
         | none => prev.length + 1) := by
  unfold recordSample
  cases h : prev.getLast? with
  | none => simp
  | some l =>
    have hne : prev ≠ [] := by
      intro hnil
      rw [hnil] at h
      simp at h
    dsimp only
    by_cases ht : l.time = t
    · rw [if_pos ht, if_pos ht, List.length_append]
      simp [List.length_dropLast, Nat.sub_add_cancel (List.length_pos.mpr hne)]
    · rw [if_neg ht, if_neg ht]
      simp

/-- C4: `recordSample` appends `(timeSeconds, wpm)` when the history is empty
or the last entry's second differs, otherwise replaces the last entry;
consequently a second sample for the same second never grows the history,
and a sample for a different second grows it by exactly 1. -/
theorem recordSample_spec (h : List Sample) (t : ℕ) (w : ℤ) :
    (h.getLast? = none → recordSample h t w = h ++ [⟨t, w⟩])
    ∧ (∀ l, h.getLast? = some l → l.time ≠ t → recordSample h t w = h ++ [⟨t, w⟩])
    ∧ (∀ l, h.getLast? = some l → l.time = t →
        recordSample h t w = h.dropLast ++ [⟨t, w⟩])
    ∧ (∀ w', (recordSample (recordSample h t w) t w').length
        = (recordSample h t w).length)
    ∧ (∀ t' w', t' ≠ t → (recordSample (recordSample h t w) t' w').length
        = (recordSample h t w).length + 1) := by
  refine ⟨?_, ?_, ?_, ?_, ?_⟩
  · intro hnone
    unfold recordSample
    rw [hnone]
  · intro l hsome hne
    unfold recordSample
    rw [hsome]
    simp [hne]
  · intro l hsome heq
    unfold recordSample
    rw [hsome]
    simp [heq]
  · intro w'
    rw [recordSample_length (recordSample h t w) t w', recordSample_getLast? h t w]
    simp
  · intro t' w' hne
    rw [recordSample_length (recordSample h t w) t' w', recordSample_getLast? h t w]
    have hts : ¬ t = t' := fun hh => hne hh.symm
    simp [hts]

/-- Witness for `recordSample_spec`: with history `[(0, 5)]`, a repeated sample
at second 0 keeps length 1 and a sample at second 1 appends. -/
theorem recordSample_spec_witness :
    recordSample [⟨0, 5⟩] 1 7 = [⟨0, 5⟩, ⟨1, 7⟩]
    ∧ recordSample [⟨0, 5⟩] 0 7 = [⟨0, 7⟩]
    ∧ (recordSample (recordSample [] 0 5) 0 7).length = (recordSample [] 0 5).length
    ∧ (recordSample (recordSample [] 0 5) 1 7).length
        = (recordSample [] 0 5).length + 1 := by
  refine ⟨?_, ?_, ?_, ?_⟩
  · exact (recordSample_spec [⟨0, 5⟩] 1 7).2.1 ⟨0, 5⟩ (by decide) (by decide)
  · exact (recordSample_spec [⟨0, 5⟩] 0 7).2.2.1 ⟨0, 5⟩ (by decide) (by decide)
  · exact (recordSample_spec [] 0 5).2.2.2.1 7
  · exact (recordSample_spec [] 0 5).2.2.2.2 1 7 (by decide)

/-- Handler `handleInput` (typing-game.tsx lines 245-271): the functional `setState`
updater.  `isFirstChar` when the previous input was empty and the new value is
not; only if additionally the game is not yet active does it start the game
(`isGameActive := true`, `startTime := Date.now()`); otherwise it only stores
the new input. -/
def handleInput (prev : GameState) (value : String) (now : ℕ) : GameState :=
  let isFirstChar := prev.userInput = "" ∧ value ≠ ""
  if isFirstChar ∧ prev.isGameActive = false then
    { prev with isGameActive := true, startTime := some now, userInput := value }
  else
    { prev with userInput := value }

/-- The countdown effect (typing-game.tsx lines 273-286): the one-second
interval is armed only while `isGameActive && timer > 0`; each delivered tick
decrements the timer by one.  A tick event in the cooperative event-loop model
therefore decrements only under that arming condition and is a no-op
otherwise. -/
def countdownTick (s : GameState) : GameState :=
  if s.isGameActive = true ∧ 0 < s.timer then { s with timer := s.timer - 1 } else s

/-- Function `calculateResults` (identical in the timer-expiry effect, typing-game.tsx
lines 327-335, and the text-completion effect, lines 373-381):
`duration = Math.floor((endTime - (startTime || endTime)) / 1000)`,
`accuracy = Math.round((correctChars / typedChars) * 100)` when anything was
typed, `wpm = Math.min(Math.round((correctChars / 5) / (duration / 60)), 999)`
when `duration > 0`, and the current `wpmHistory` is frozen into the result. -/
def calculateResults (s : GameState) (now : ℕ) (history : List Sample) : Result :=
  let duration : ℕ := match s.startTime with
    | some st => (now - st) / 1000
    | none => 0
  let typedChars := s.userInput.length
  let correctChars := getCorrectChars s.userInput.data s.text.data
  let accuracy : ℤ :=
    if 0 < typedChars then round (((correctChars : ℚ) / (typedChars : ℚ)) * 100) else 0
  let wpm : ℤ :=
    if 0 < duration then
      min (round ((correctChars : ℚ) / 5 / ((duration : ℚ) / 60))) 999
    else 0
  { wpm := wpm, accuracy := accuracy, duration := duration, wpmHistory := history }

/-- Trigger condition of the timer-expiry finish effect (typing-game.tsx line
326): `state.timer === 0 && state.isGameActive && !state.isGameFinished`. -/
def timerExpiryFires (s : GameState) : Bool :=
  s.timer == 0 && s.isGameActive && !s.isGameFinished

/-- Trigger condition of the text-completion finish effect (typing-game.tsx
line 372): `state.userInput.length === state.text.length && state.isGameActive
&& !state.isGameFinished`. -/
def completionFires (s : GameState) : Bool :=
  s.userInput.length == s.text.length && s.isGameActive && !s.isGameFinished

/-- The deferred `setState` of either finish effect (typing-game.tsx lines
341-346 and 386-391): sets `isGameFinished` and freezes the final metrics.
Note that `isGameActive` is left `true`. -/
def commitFinish (s : GameState) (r : Result) : GameState :=
  { s with isGameFinished := true, finalWPM := r.wpm, finalAccuracy := r.accuracy }

/-- The timer-expiry finish effect (typing-game.tsx lines 325-368) run
atomically: when its trigger condition holds on the observed state it computes
the results, commits the `Finished` transition and emits the `Result` (the
`saveGameResult` / `onGameFinish` submission); otherwise it is a no-op. -/
def runTimerFinish (s : GameState) (now : ℕ) (history : List Sample) :
    GameState × Option Result :=
  if timerExpiryFires s then
    let r := calculateResults s now history
    (commitFinish s r, some r)
  else (s, none)

/-- The text-completion finish effect (typing-game.tsx lines 370-413) run
atomically, analogous to `runTimerFinish`. -/
def runCompletionFinish (s : GameState) (now : ℕ) (history : List Sample) :
    GameState × Option Result :=
  if completionFires s then
    let r := calculateResults s now history
    (commitFinish s r, some r)
  else (s, none)

/-- Number of `Result` submissions an effect emitted. -/
def submissionCount : Option Result → ℕ
  | some _ => 1
  | none => 0

/-- Both finish effects evaluated against the same observed state snapshot,
which is what React does when both trigger conditions hold in one committed
render (each effect's `setState`/submission is deferred through `setTimeout`,
so neither observes the other's `isGameFinished` write): total number of
`Result` submissions. -/
def snapshotSubmissions (s : GameState) (now : ℕ) (history : List Sample) : ℕ :=
  submissionCount (runTimerFinish s now history).2
    + submissionCount (runCompletionFinish s now history).2

/-- The WPM sampling effect body (typing-game.tsx lines 289-323): while
`isGameActive && startTime`, compute the elapsed time, and when
`elapsedMinutes > 0` record `(Math.floor(elapsedSeconds), wpm)` into the
history via the `setWpmHistory` updater; when the game is not active the
history is reset to `[]`.  The trigger reads `isGameActive` and `startTime`
only — not `isGameFinished`. -/
def samplingTick (s : GameState) (history : List Sample) (now : ℕ) : List Sample :=
  if s.isGameActive = true then
    match s.startTime with
    | some st =>
      let elapsedSeconds : ℚ := ((now : ℚ) - (st : ℚ)) / 1000
      let elapsedMinutes : ℚ := elapsedSeconds / 60
      if 0 < elapsedMinutes then
        let correctChars := getCorrectChars s.userInput.data s.text.data
        let wpm : ℤ := min (round ((correctChars : ℚ) / 5 / elapsedMinutes)) 999
        let timeSeconds : ℕ := (⌊elapsedSeconds⌋).toNat
        recordSample history timeSeconds wpm
      else history
    | none => history
  else []

/-- Handler `handleRestart` (typing-game.tsx lines 415-453): replaces the state with a
brand-new session — fresh text, empty input, `startTime = null`, the timer
preference, both phase flags cleared, zeroed final metrics. -/
def handleRestart (newText : String) (timerPreference : ℤ) : GameState :=
  { text := newText, userInput := "", startTime := none, timer := timerPreference,
    isGameActive := false, isGameFinished := false, finalWPM := 0, finalAccuracy := 0 }

/-- The initial component state (typing-game.tsx lines 37-46). -/
def initialState : GameState :=
  { text := "", userInput := "", startTime := none, timer := 30,
    isGameActive := false, isGameFinished := false, finalWPM := 0, finalAccuracy := 0 }

/-- The stimuli that drive one session (no restart: a restart replaces the
session wholesale via `handleRestart`). -/
inductive GameEvent where
  | input (value : String) (now : ℕ)
  | tick
  | timerFinish (now : ℕ) (history : List Sample)
  | completionFinish (now : ℕ) (history : List Sample)

/-- One step of the session state machine. -/
def step (s : GameState) : GameEvent → GameState
  | .input v now => handleInput s v now
  | .tick => countdownTick s
  | .timerFinish now h => (runTimerFinish s now h).1
  | .completionFinish now h => (runCompletionFinish s now h).1

/-- A session state in which the countdown has just reached 0 while the
session is active and unfinished, with the typed input one character short of
the reference text "ab". -/
def doubleFinishPre : GameState :=
  { text := "ab", userInput := "a", startTime := some 0, timer := 0,
    isGameActive := true, isGameFinished := false, finalWPM := 0, finalAccuracy := 0 }

/-- C1 counterexample: from `doubleFinishPre` (timer at 0, effect not yet
committed because the finish `setState` is deferred through `setTimeout`), the
input update completing the text produces a state on which BOTH finish-effect
trigger conditions hold with the Finished flag still unobserved — and both
effects fire, submitting two Results for the same session instead of one. -/
theorem doubleFinish_counterexample :
    snapshotSubmissions (handleInput doubleFinishPre "ab" 1500) 2500 [] = 2
    ∧ ¬ snapshotSubmissions (handleInput doubleFinishPre "ab" 1500) 2500 [] ≤ 1 := by
  constructor
  · decide
  · decide

/-- C1 amended: once the Finished flag has been committed and is observed by
the triggers, neither finish effect fires; and under sequential evaluation —
each effect observing the previous effect's committed state, which is the
non-racy schedule — at most one Result is ever produced, whichever trigger
runs first.  (Only in the window where both conditions are satisfied before
the deferred Finished commit is observed can a second Result be produced, as
`doubleFinish_counterexample` shows.) -/
theorem finish_at_most_once_sequential (s : GameState) (now now' : ℕ)
    (h h' : List Sample) :
    (s.isGameFinished = true → snapshotSubmissions s now h = 0)
    ∧ submissionCount (runTimerFinish s now h).2
        + submissionCount (runCompletionFinish (runTimerFinish s now h).1 now' h').2 ≤ 1
    ∧ submissionCount (runCompletionFinish s now h).2
        + submissionCount (runTimerFinish (runCompletionFinish s now h).1 now' h').2 ≤ 1 := by
  refine ⟨?_, ?_, ?_⟩
  · intro hfin
    unfold snapshotSubmissions runTimerFinish runCompletionFinish
      timerExpiryFires completionFires
    rw [hfin]
    simp [submissionCount]
  · by_cases ht : timerExpiryFires s = true
    · have hcommit : (runTimerFinish s now h).1
          = commitFinish s (calculateResults s now h) := by
        unfold runTimerFinish
        rw [if_pos ht]
      have hfire : (runTimerFinish s now h).2
          = some (calculateResults s now h) := by
        unfold runTimerFinish
        rw [if_pos ht]
      have hdone :
          completionFires (commitFinish s (calculateResults s now h)) = false := by
        unfold completionFires commitFinish
        simp
      have hnone :
          (runCompletionFinish (runTimerFinish s now h).1 now' h').2 = none := by
        rw [hcommit]
        unfold runCompletionFinish
        rw [hdone]
        simp
      rw [hfire, hnone]
      simp [submissionCount]
    · have hskip : (runTimerFinish s now h) = (s, none) := by
        unfold runTimerFinish
        rw [if_neg ht]
      rw [hskip]
      unfold runCompletionFinish
      by_cases hc : completionFires s = true
      · rw [if_pos hc]
        simp [submissionCount]
      · rw [if_neg hc]
        simp [submissionCount]
  · by_cases hc : completionFires s = true
    · have hcommit : (runCompletionFinish s now h).1
          = commitFinish s (calculateResults s now h) := by
        unfold runCompletionFinish
        rw [if_pos hc]
      have hfire : (runCompletionFinish s now h).2
          = some (calculateResults s now h) := by
        unfold runCompletionFinish
        rw [if_pos hc]
      have hdone :
          timerExpiryFires (commitFinish s (calculateResults s now h)) = false := by
        unfold timerExpiryFires commitFinish
        simp
      have hnone :
          (runTimerFinish (runCompletionFinish s now h).1 now' h').2 = none := by
        rw [hcommit]
        unfold runTimerFinish
        rw [hdone]
        simp
      rw [hfire, hnone]
      simp [submissionCount]
    · have hskip : (runCompletionFinish s now h) = (s, none) := by
        unfold runCompletionFinish
        rw [if_neg hc]
      rw [hskip]
      unfold runTimerFinish
      by_cases ht : timerExpiryFires s = true
      · rw [if_pos ht]
        simp [submissionCount]
      · rw [if_neg ht]
        simp [submissionCount]

/-- Witness for `finish_at_most_once_sequential`: on an already-finished
state, the snapshot evaluation of both effects emits no Result at all. -/
theorem finish_at_most_once_sequential_witness :
    snapshotSubmissions (commitFinish doubleFinishPre ⟨0, 0, 0, []⟩) 9999 [] = 0 := by
  exact (finish_at_most_once_sequential
    (commitFinish doubleFinishPre ⟨0, 0, 0, []⟩) 9999 0 [] []).1 rfl

/-- A finished session state: the Finished flag is set, but (as after every
finish in the component) `isGameActive` is still `true`. -/
def finishedSamplingState : GameState :=
  { text := "abcdef", userInput := "abcde", startTime := some 0, timer := 0,
    isGameActive := true, isGameFinished := true, finalWPM := 12, finalAccuracy := 100 }

lemma recordSample_nil (t : ℕ) (w : ℤ) : recordSample [] t w = [⟨t, w⟩] := by
  unfold recordSample
  simp

lemma samplingTick_fires (s : GameState) (h : List Sample) (now st : ℕ)
    (ha : s.isGameActive = true) (hst : s.startTime = some st)
    (hlt : (0 : ℚ) < (((now : ℚ) - (st : ℚ)) / 1000) / 60) :
    samplingTick s h now
      = recordSample h ((⌊((now : ℚ) - (st : ℚ)) / 1000⌋).toNat)
          (min (round ((getCorrectChars s.userInput.data s.text.data : ℚ) / 5 /
            ((((now : ℚ) - (st : ℚ)) / 1000) / 60))) 999) := by
  unfold samplingTick
  rw [ha, hst]
  simp only [if_true]
  rw [if_pos hlt]

/-- C5 counterexample: the sampling effect's condition reads only
`isGameActive` (never cleared by finishing) and `startTime`; on the finished
state `finishedSamplingState` a sampling tick at 5000 ms still records a
sample, so the wpmHistory keeps growing after the Finished transition,
contrary to the claim. -/
theorem sampling_after_finished_counterexample :
    finishedSamplingState.isGameFinished = true
    ∧ samplingTick finishedSamplingState [] 5000 ≠ [] := by
  constructor
  · rfl
  · have hfire := samplingTick_fires finishedSamplingState [] 5000 0 rfl rfl
      (by norm_num)
    rw [hfire, recordSample_nil]
    simp

/-- C5 amended: sampling is controlled solely by `isGameActive` (which stays
`true` after finishing, until a restart replaces the session) together with
`startTime`: the Finished flag has no effect on whether a sample is recorded,
so samples keep accruing after the Finished transition; sampling stops (and
the history is reset) exactly when the session is deactivated.  The history
frozen into a Result at finish time is a by-value snapshot: a Result emitted
by a finish effect carries exactly the history passed at that moment. -/
theorem sampling_ignores_finished_flag (s : GameState) (h : List Sample)
    (now : ℕ) (b : Bool) :
    samplingTick { s with isGameFinished := b } h now = samplingTick s h now
    ∧ (s.isGameActive = false → samplingTick s h now = [])
    ∧ (∀ r, (runTimerFinish s now h).2 = some r → r.wpmHistory = h)
    ∧ (∀ r, (runCompletionFinish s now h).2 = some r → r.wpmHistory = h) := by
  refine ⟨rfl, ?_, ?_, ?_⟩
  · intro hna
    unfold samplingTick
    rw [hna]
    simp
  · intro r hr
    unfold runTimerFinish at hr
    by_cases ht : timerExpiryFires s = true
    · rw [if_pos ht] at hr
      simp only at hr
      cases hr
      rfl
    · rw [if_neg ht] at hr
      simp at hr
  · intro r hr
    unfold runCompletionFinish at hr
    by_cases ht : completionFires s = true
    · rw [if_pos ht] at hr
      simp only at hr
      cases hr
      rfl
    · rw [if_neg ht] at hr
      simp at hr

/-- Witness for `sampling_ignores_finished_flag`: an inactive session samples
nothing (the effect resets the history), and a fired timer finish freezes the
passed history into its Result. -/
theorem sampling_ignores_finished_flag_witness :
    samplingTick initialState [⟨0, 5⟩] 700 = []
    ∧ (calculateResults doubleFinishPre 2500 [⟨1, 9⟩]).wpmHistory = [⟨1, 9⟩] := by
  constructor
  · exact (sampling_ignores_finished_flag initialState [⟨0, 5⟩] 700 true).2.1 rfl
  · exact (sampling_ignores_finished_flag doubleFinishPre [⟨1, 9⟩] 2500 true).2.2.1
      (calculateResults doubleFinishPre 2500 [⟨1, 9⟩]) rfl

lemma step_preserves_started (s : GameState) (e : GameEvent) (x : ℕ)
    (hst : s.startTime = some x) (ha : s.isGameActive = true) :
    (step s e).startTime = some x ∧ (step s e).isGameActive = true := by
  cases e with
  | input v now =>
    simp only [step]
    unfold handleInput
    have hcond : ¬ ((s.userInput = "" ∧ v ≠ "") ∧ s.isGameActive = false) := by
      rintro ⟨-, hfalse⟩
      rw [ha] at hfalse
      cases hfalse
    rw [if_neg hcond]
    exact ⟨hst, ha⟩
  | tick =>
    simp only [step]
    unfold countdownTick
    by_cases hc : s.isGameActive = true ∧ 0 < s.timer
    · rw [if_pos hc]
      exact ⟨hst, ha⟩
    · rw [if_neg hc]
      exact ⟨hst, ha⟩
  | timerFinish now h =>
    simp only [step]
    unfold runTimerFinish
    by_cases hc : timerExpiryFires s = true
    · rw [if_pos hc]
      exact ⟨hst, ha⟩
    · rw [if_neg hc]
      exact ⟨hst, ha⟩
  | completionFinish now h =>
    simp only [step]
    unfold runCompletionFinish
    by_cases hc : completionFires s = true
    · rw [if_pos hc]
      exact ⟨hst, ha⟩
    · rw [if_neg hc]
      exact ⟨hst, ha⟩

lemma foldl_preserves_started (evs : List GameEvent) :
    ∀ (s : GameState) (x : ℕ), s.startTime = some x → s.isGameActive = true →
      (evs.foldl step s).startTime = some x
      ∧ (evs.foldl step s).isGameActive = true := by
  induction evs with
  | nil => intro s x hst ha; exact ⟨hst, ha⟩
  | cons e rest ih =>
    intro s x hst ha
    have h1 := step_preserves_started s e x hst ha
    exact ih (step s e) x h1.1 h1.2

/-- C6: `startTime` is set exactly once per session lifetime.  The first input
update that makes `typedInput` non-empty on an idle session sets
`startTime := now` and activates the session; once active, `handleInput` never
touches `startTime` again (so deleting all input and retyping keeps the
original start and the session stays Active); no event of a session's
lifetime resets a set `startTime`; and only a restart — which constructs a
brand-new state — yields `startTime` absent again. -/
theorem startedAt_set_once (s : GameState) (v : String) (now : ℕ) :
    (s.isGameActive = true →
      (handleInput s v now).startTime = s.startTime
      ∧ (handleInput s v now).isGameActive = true)
    ∧ (s.userInput = "" → s.isGameActive = false → v ≠ "" →
        (handleInput s v now).startTime = some now
        ∧ (handleInput s v now).isGameActive = true)
    ∧ (∀ (x : ℕ) (evs : List GameEvent), s.startTime = some x → s.isGameActive = true →
        (evs.foldl step s).startTime = some x)
    ∧ (∀ (newText : String) (pref : ℤ),
        (handleRestart newText pref).startTime = none
        ∧ (handleRestart newText pref).isGameActive = false) := by
  refine ⟨?_, ?_, ?_, ?_⟩
  · intro ha
    unfold handleInput
    have hcond : ¬ ((s.userInput = "" ∧ v ≠ "") ∧ s.isGameActive = false) := by
      rintro ⟨-, hfalse⟩
      rw [ha] at hfalse
      cases hfalse
    rw [if_neg hcond]
    exact ⟨rfl, ha⟩
  · intro hemp hidle hv
    unfold handleInput
    rw [if_pos ⟨⟨hemp, hv⟩, hidle⟩]
    exact ⟨rfl, rfl⟩
  · intro x evs hst ha
    exact (foldl_preserves_started evs s x hst ha).1
  · intro newText pref
    exact ⟨rfl, rfl⟩

/-- Witness for `startedAt_set_once`: the first keystroke on a fresh session
sets `startTime` to its timestamp; on the resulting active session a trace
that deletes all input, retypes, ticks and finishes never changes it; and a
restart state has no `startTime`. -/
theorem startedAt_set_once_witness :
    (handleInput { initialState with text := "ab" } "a" 42).startTime = some 42
    ∧ ([GameEvent.input "" 50, GameEvent.input "x" 60, GameEvent.tick,
        GameEvent.completionFinish 70 []].foldl step
        (handleInput { initialState with text := "ab" } "a" 42)).startTime = some 42
    ∧ (handleRestart "next text" 30).startTime = none := by
  refine ⟨?_, ?_, ?_⟩
  · exact ((startedAt_set_once { initialState with text := "ab" } "a" 42).2.1
      rfl rfl (by decide)).1
  · have hstart : (handleInput { initialState with text := "ab" } "a" 42).startTime
        = some 42 := by decide
    have hactive : (handleInput { initialState with text := "ab" } "a" 42).isGameActive
        = true := by decide
    exact (startedAt_set_once (handleInput { initialState with text := "ab" } "a" 42)
      "" 0).2.2.1 42 _ hstart hactive
  · exact ((startedAt_set_once initialState "" 0).2.2.2 "next text" 30).1

lemma step_preserves_timer_nonneg (s : GameState) (e : GameEvent)
    (h : 0 ≤ s.timer) : 0 ≤ (step s e).timer := by
  cases e with
  | input v now =>
    simp only [step]
    unfold handleInput
    by_cases hc : (s.userInput = "" ∧ v ≠ "") ∧ s.isGameActive = false
    · rw [if_pos hc]
      exact h
    · rw [if_neg hc]
      exact h
  | tick =>
    simp only [step]
    unfold countdownTick
    by_cases hc : s.isGameActive = true ∧ 0 < s.timer
    · rw [if_pos hc]
      have h2 := hc.2
      show 0 ≤ s.timer - 1
      omega
    · rw [if_neg hc]
      exact h
  | timerFinish now hist =>
    simp only [step]
    unfold runTimerFinish
    by_cases hc : timerExpiryFires s = true
    · rw [if_pos hc]
      exact h
    · rw [if_neg hc]
      exact h
  | completionFinish now hist =>
    simp only [step]
    unfold runCompletionFinish
    by_cases hc : completionFires s = true
    · rw [if_pos hc]
      exact h
    · rw [if_neg hc]
      exact h

/-- C10: the countdown never goes negative.  The per-second decrement is
applied only when the game is active with `timer > 0` (the arming condition of
the interval), every other event leaves the timer untouched, so from any state
with `timer ≥ 0` every reachable state still has `timer ≥ 0`; and the
countdown halts exactly at 0 (a tick at `timer = 0`, or while inactive, is a
no-op). -/
theorem countdown_never_negative (s : GameState) :
    (∀ evs : List GameEvent, 0 ≤ s.timer → 0 ≤ (evs.foldl step s).timer)
    ∧ (s.timer = 0 → countdownTick s = s)
    ∧ (s.isGameActive = false → countdownTick s = s) := by
  refine ⟨?_, ?_, ?_⟩
  · intro evs
    induction evs generalizing s with
    | nil => intro h; exact h
    | cons e rest ih =>
      intro h
      exact ih (step s e) (step_preserves_timer_nonneg s e h)
  · intro h0
    unfold countdownTick
    rw [if_neg (by rw [h0]; rintro ⟨-, hlt⟩; omega)]
  · intro hna
    unfold countdownTick
    rw [if_neg (by rw [hna]; rintro ⟨hfalse, -⟩; cases hfalse)]

/-- Witness for `countdown_never_negative`: a trace of ticks from a 2-second
active session never drives the timer below 0, and ticking at 0 is a no-op. -/
theorem countdown_never_negative_witness :
    0 ≤ ([GameEvent.tick, GameEvent.tick, GameEvent.tick, GameEvent.tick].foldl step
      { doubleFinishPre with timer := 2 }).timer
    ∧ countdownTick doubleFinishPre = doubleFinishPre := by
  constructor
  · exact (countdown_never_negative { doubleFinishPre with timer := 2 }).1
      [GameEvent.tick, GameEvent.tick, GameEvent.tick, GameEvent.tick] (by decide)
  · exact (countdown_never_negative doubleFinishPre).2.1 rfl

lemma calculateResults_duration (s : GameState) (now : ℕ) (h : List Sample)
    (st : ℕ) (hst : s.startTime = some st) :
    (calculateResults s now h).duration = (now - st) / 1000 := by
  unfold calculateResults
  rw [hst]

/-- C8: whichever finish effect emits the Result, its `duration` is the
actual elapsed wall-clock time `⌊(now − startedAt) / 1000⌋` — not the
configured duration — so a session finished while less than `D` configured
seconds have elapsed records `durationSeconds < D`. -/
theorem result_duration_wallclock (s : GameState) (now : ℕ) (h : List Sample)
    (st D : ℕ) (r : Result)
    (hst : s.startTime = some st)
    (hr : (runTimerFinish s now h).2 = some r ∨ (runCompletionFinish s now h).2 = some r) :
    r.duration = (now - st) / 1000
    ∧ (now - st < 1000 * D → r.duration < D) := by
  have hr' : r = calculateResults s now h := by
    rcases hr with hr | hr
    · unfold runTimerFinish at hr
      by_cases hc : timerExpiryFires s = true
      · rw [if_pos hc] at hr
        simp only at hr
        cases hr
        rfl
      · rw [if_neg hc] at hr
        simp at hr
    · unfold runCompletionFinish at hr
      by_cases hc : completionFires s = true
      · rw [if_pos hc] at hr
        simp only at hr
        cases hr
        rfl
      · rw [if_neg hc] at hr
        simp at hr
  subst hr'
  rw [calculateResults_duration s now h st hst]
  exact ⟨rfl, by omega⟩

/-- A session two characters into the reference "ab": typing reached full text
length with 2.5 wall-clock seconds elapsed and the 30-second timer far from
expiry. -/
def earlyCompletionState : GameState :=
  { text := "ab", userInput := "ab", startTime := some 0, timer := 28,
    isGameActive := true, isGameFinished := false, finalWPM := 0, finalAccuracy := 0 }

/-- Witness for `result_duration_wallclock`: completing the text at 2500 ms
yields `duration = 2`, strictly below the configured 30 seconds. -/
theorem result_duration_wallclock_witness :
    (calculateResults earlyCompletionState 2500 []).duration = 2
    ∧ (calculateResults earlyCompletionState 2500 []).duration < 30 := by
  have h := result_duration_wallclock earlyCompletionState 2500 [] 0 30
    (calculateResults earlyCompletionState 2500 []) rfl (Or.inr rfl)
  refine ⟨?_, h.2 (by norm_num)⟩
  rw [h.1]

/-- Function `updateGhostCursor` (typing-game.tsx lines 207-237):
`charsPerSecond = (wpm * 5) / 60`;
`charactersTyped = Math.floor(elapsedMs / 1000 * charsPerSecond)`.
A pure function of the elapsed time and the opponent's fixed WPM — the real
session's typed input is not an argument. -/
def charactersTyped (elapsedMs wpm : ℕ) : ℕ :=
  let charsPerSecond : ℚ := ((wpm * 5 : ℕ) : ℚ) / 60
  (⌊(elapsedMs : ℚ) / 1000 * charsPerSecond⌋).toNat

/-- The ghost-cursor placement (typing-game.tsx lines 216-236): an index of 0
sits before the text, an index below the text length sits at that character,
and any larger index sits after the last character — i.e. the displayed
position is `charactersTyped` clamped to the text length. -/
def ghostProjectedIndex (elapsedMs wpm textLen : ℕ) : ℕ :=
  min (charactersTyped elapsedMs wpm) textLen

/-- Written from the specification's words, for comparison with
`ghostProjectedIndex`: `floor(elapsedMillis/1000 * (opponentWPM * 5/60))`,
clamped to `[0, len(referenceText)]`. -/
def projectedCharIndexSpec (elapsedMs wpm textLen : ℕ) : ℤ :=
  max 0 (min ⌊(elapsedMs : ℚ) / 1000 * ((wpm : ℚ) * 5 / 60)⌋ (textLen : ℤ))

lemma charactersTyped_floor_nonneg (elapsedMs wpm : ℕ) :
    0 ≤ ⌊(elapsedMs : ℚ) / 1000 * (((wpm * 5 : ℕ) : ℚ) / 60)⌋ := by
  apply Int.floor_nonneg.mpr
  positivity

/-- C7: the ghost projector's displayed character index is exactly the spec's
`floor(elapsedMillis/1000 * (opponentWPM * 5/60))` clamped to
`[0, len(referenceText)]`; it never exceeds the text length; and at
`elapsedMillis = 3000`, `opponentWPM = 60` the unclamped projection is 15, so
any text of at least 15 characters shows the ghost at index 15. -/
theorem ghostProjectedIndex_spec (ms wpm len : ℕ) :
    (ghostProjectedIndex ms wpm len : ℤ) = projectedCharIndexSpec ms wpm len
    ∧ ghostProjectedIndex ms wpm len ≤ len
    ∧ charactersTyped 3000 60 = 15
    ∧ (15 ≤ len → ghostProjectedIndex 3000 60 len = 15) := by
  have hcast5 : ((wpm * 5 : ℕ) : ℚ) = (wpm : ℚ) * 5 := by push_cast; ring
  have hnn := charactersTyped_floor_nonneg ms wpm
  have hchar : (charactersTyped ms wpm : ℤ)
      = ⌊(ms : ℚ) / 1000 * ((wpm : ℚ) * 5 / 60)⌋ := by
    unfold charactersTyped
    rw [Int.toNat_of_nonneg hnn, hcast5]
  have h15 : charactersTyped 3000 60 = 15 := by
    unfold charactersTyped
    have harg : ((3000 : ℕ) : ℚ) / 1000 * (((60 * 5 : ℕ) : ℚ) / 60) = 15 := by
      norm_num
    dsimp only
    rw [harg]
    norm_num
    rfl
  refine ⟨?_, min_le_right _ _, h15, ?_⟩
  · unfold ghostProjectedIndex projectedCharIndexSpec
    have hnn2 : 0 ≤ ⌊(ms : ℚ) / 1000 * ((wpm : ℚ) * 5 / 60)⌋ := by
      rw [← hchar]
      exact Int.natCast_nonneg _
    rw [Nat.cast_min, hchar,
      max_eq_right (le_min hnn2 (by exact_mod_cast Nat.zero_le len))]
  · intro hlen
    unfold ghostProjectedIndex
    rw [h15]
    omega

/-- Witness for `ghostProjectedIndex_spec` at the spec's scenario: a 60-WPM
opponent, 3000 ms in, on a 200-character text sits at index 15. -/
theorem ghostProjectedIndex_spec_witness :
    ghostProjectedIndex 3000 60 200 = 15 := by
  exact (ghostProjectedIndex_spec 3000 60 200).2.2.2 (by norm_num)

/-- The outcome object `saveGameResult` resolves with on success
(`{ success, gameResultId }`, share.ts lines 34 and 48). -/
structure SaveOutcome where
  success : Bool
  gameResultId : Option String
deriving DecidableEq, Repr

/-- One call to the server action, together with whether the database insert
was reached. -/
structure SaveCall where
  outcome : Except String SaveOutcome
  insertCalled : Bool
deriving Repr

/-- Server action `saveGameResult` (share.ts lines 11-54).  The three range validations run
first and `throw`; the catch block converts any thrown error into the rejected
`"Failed to save game result"`.  Then the session is read: with no
authenticated user it returns `{ success: false, gameResultId: null }` before
any insert; otherwise the insert runs and the returned row id is reported.
`newId` stands for the id the database returns. -/
def saveGameResult (wpm accuracy duration : ℤ) (userId : Option String)
    (newId : String) : SaveCall :=
  if accuracy < 0 ∨ 100 < accuracy then
    { outcome := Except.error "Failed to save game result", insertCalled := false }
  else if wpm < 0 ∨ 350 < wpm then
    { outcome := Except.error "Failed to save game result", insertCalled := false }
  else if duration < 0 ∨ 300 < duration then
    { outcome := Except.error "Failed to save game result", insertCalled := false }
  else
    match userId with
    | none => { outcome := Except.ok { success := false, gameResultId := none },
                insertCalled := false }
    | some _ => { outcome := Except.ok { success := true, gameResultId := some newId },
                  insertCalled := true }

/-- The component's handling of the auto-save call (typing-game.tsx lines
357-365): on a fulfilled outcome with `success && gameResultId` it stores the
id; a rejected outcome is only logged (`console.error`).  The game state `s`
is returned untouched in every case. -/
def applySaveOutcome (s : GameState) (savedGameResultId : Option String)
    (call : SaveCall) : GameState × Option String :=
  match call.outcome with
  | Except.ok r =>
    match r.gameResultId with
    | some gid => if r.success then (s, some gid) else (s, savedGameResultId)
    | none => (s, savedGameResultId)
  | Except.error _ => (s, savedGameResultId)

/-- C9: `saveGameResult` validates ranges locally — `wpm ∉ [0,350]`,
`accuracy ∉ [0,100]` or `duration ∉ [0,300]` yields a rejected outcome with
the insert never reached; an in-range submission without an authenticated
identity short-circuits before the insert with the non-error outcome
`{ success := false }`; and whatever outcome comes back, the component's
handling leaves the game state (in particular the phase flags) unchanged. -/
theorem saveGameResult_spec (wpm accuracy duration : ℤ) (userId : Option String)
    (newId : String) :
    ((wpm < 0 ∨ 350 < wpm ∨ accuracy < 0 ∨ 100 < accuracy
        ∨ duration < 0 ∨ 300 < duration) →
      (saveGameResult wpm accuracy duration userId newId).insertCalled = false
      ∧ (saveGameResult wpm accuracy duration userId newId).outcome
          = Except.error "Failed to save game result")
    ∧ (0 ≤ wpm → wpm ≤ 350 → 0 ≤ accuracy → accuracy ≤ 100 →
        0 ≤ duration → duration ≤ 300 → userId = none →
        (saveGameResult wpm accuracy duration userId newId).outcome
          = Except.ok { success := false, gameResultId := none }
        ∧ (saveGameResult wpm accuracy duration userId newId).insertCalled = false)
    ∧ (∀ (s : GameState) (saved : Option String) (call : SaveCall),
        (applySaveOutcome s saved call).1 = s) := by
  refine ⟨?_, ?_, ?_⟩
  · intro hbad
    unfold saveGameResult
    by_cases hacc : accuracy < 0 ∨ 100 < accuracy
    · rw [if_pos hacc]
      exact ⟨rfl, rfl⟩
    · rw [if_neg hacc]
      by_cases hwpm : wpm < 0 ∨ 350 < wpm
      · rw [if_pos hwpm]
        exact ⟨rfl, rfl⟩
      · rw [if_neg hwpm]
        have hdur : duration < 0 ∨ 300 < duration := by tauto
        rw [if_pos hdur]
        exact ⟨rfl, rfl⟩
  · intro h1 h2 h3 h4 h5 h6 hid
    subst hid
    unfold saveGameResult
    rw [if_neg (by omega), if_neg (by omega), if_neg (by omega)]
    exact ⟨rfl, rfl⟩
  · intro s saved call
    unfold applySaveOutcome
    rcases call with ⟨outcome, ic⟩
    cases outcome with
    | error e => rfl
    | ok r =>
      rcases r with ⟨succ, gid⟩
      cases gid with
      | none => rfl
      | some g =>
        cases succ with
        | false => rfl
        | true => rfl

/-- Witness for `saveGameResult_spec`: a 400-WPM submission is rejected
locally without an insert; an in-range anonymous submission resolves with
`success := false` and no insert; and the component state survives an error
outcome unchanged. -/
theorem saveGameResult_spec_witness :
    (saveGameResult 400 100 30 (some "user-1") "id-1").insertCalled = false
    ∧ (saveGameResult 400 100 30 (some "user-1") "id-1").outcome
        = Except.error "Failed to save game result"
    ∧ (saveGameResult 42 97 30 none "id-1").outcome
        = Except.ok { success := false, gameResultId := none }
    ∧ (applySaveOutcome initialState none
        ⟨Except.error "Failed to save game result", false⟩).1 = initialState := by
  have h1 := (saveGameResult_spec 400 100 30 (some "user-1") "id-1").1
    (Or.inr (Or.inl (by norm_num)))
  have h2 := (saveGameResult_spec 42 97 30 none "id-1").2.1
    (by norm_num) (by norm_num) (by norm_num) (by norm_num) (by norm_num)
    (by norm_num) rfl
  have h3 := (saveGameResult_spec 42 97 30 none "id-1").2.2 initialState none
    ⟨Except.error "Failed to save game result", false⟩
  exact ⟨h1.1, h1.2, h2.1, h3⟩

end TypingGame
